import Mathlib

/-!
Shallow embedding of the xdcrDiffer streaming-diff pipeline pieces that the
claims are about: the DCP handler mutation path (dcp/DcpHandler.go), the
checkpoint manager (dcp/CheckpointManager.go) and the mutation differ
(filterPool.go, package differ).

Machine integers (uint16/uint32/uint64/uint8) are modelled as Nat; byte
slices as List Nat.  Where the Go code truncates (explicit conversions in
binary.BigEndian writes) the byte extraction below performs the same
truncation.  File and network I/O is modelled as pure state: a bin write
becomes an element of a write list, the append-only file of a Bucket becomes
a List Nat, and the completion signal sent to the driver becomes an Option
field of the result.
-/

namespace XdcrDiffer

/-- Modelled from the spec: base.NumberOfVbuckets, the fixed vbucket count
V = 1024 (the base package is not part of the provided sources). -/
def NumberOfVbuckets : Nat := 1024

/-- Modelled from the spec: base.BodyLength (the base package is not part of
the provided sources).  The number of bytes of a binned record that follow
the key, per the field list of the spec (section 3): seqno 8 + revId 8 +
cas 8 + flags 4 + expiry 4 + opCode 2 + datatype 2 + bodyHash 64 = 100.
The buffer allocated by serializeMutation has size keyLen + BodyLength + 2,
the extra 2 bytes being the leading keyLen field, and the sequential writes
of serializeMutation tile that buffer exactly. -/
def BodyLength : Nat := 100

/-- gomemcached.UPR_MUTATION opcode (external library constant). -/
def UPR_MUTATION : Nat := 0x57

/-- gomemcached.UPR_DELETION opcode (external library constant). -/
def UPR_DELETION : Nat := 0x58

/-- gomemcached.UPR_EXPIRATION opcode (external library constant). -/
def UPR_EXPIRATION : Nat := 0x59

/-- dcp/DcpHandler.go, type Mutation. -/
structure Mutation where
  vbno : Nat
  key : List Nat
  seqno : Nat
  revId : Nat
  cas : Nat
  flags : Nat
  expiry : Nat
  opCode : Nat
  value : List Nat
  datatype : Nat
deriving DecidableEq

/-- dcp/DcpHandler.go, CreateMutation.  Note: the Go struct literal omits the
datatype field, so the constructed Mutation carries the zero value 0 for
datatype regardless of the datatype argument. -/
def CreateMutation (vbno : Nat) (key : List Nat) (seqno revId cas : Nat)
    (flags expiry : Nat) (opCode : Nat) (value : List Nat) (_datatype : Nat) : Mutation :=
  { vbno := vbno
    key := key
    seqno := seqno
    revId := revId
    cas := cas
    flags := flags
    expiry := expiry
    opCode := opCode
    value := value
    datatype := 0 }

/-- dcp/DcpHandler.go, method Mutation of DcpHandler: the Mutation object
enqueued on the data channel for a stream mutation callback. -/
def onMutation (seqno revId : Nat) (flags expiry _lockTime : Nat) (cas : Nat)
    (datatype : Nat) (vbno : Nat) (key value : List Nat) : Mutation :=
  CreateMutation vbno key seqno revId cas flags expiry UPR_MUTATION value datatype

/-- dcp/DcpHandler.go, method Deletion of DcpHandler: the Mutation object
enqueued for a stream deletion callback (flags 0, expiry 0, the value is
passed through from the callback). -/
def onDeletion (seqno revId cas : Nat) (datatype : Nat) (vbno : Nat)
    (key value : List Nat) : Mutation :=
  CreateMutation vbno key seqno revId cas 0 0 UPR_DELETION value datatype

/-- dcp/DcpHandler.go, method Expiration of DcpHandler: the Mutation object
enqueued for a stream expiration callback (flags 0, expiry 0, nil value
modelled as the empty list, datatype 0). -/
def onExpiration (seqno revId cas : Nat) (vbno : Nat) (key : List Nat) : Mutation :=
  CreateMutation vbno key seqno revId cas 0 0 UPR_EXPIRATION [] 0

/-- binary.BigEndian.PutUint16: big-endian bytes of n mod 2^16. -/
def putUint16 (n : Nat) : List Nat :=
  [n / 2 ^ 8 % 256, n % 256]

/-- binary.BigEndian.PutUint32: big-endian bytes of n mod 2^32. -/
def putUint32 (n : Nat) : List Nat :=
  [n / 2 ^ 24 % 256, n / 2 ^ 16 % 256, n / 2 ^ 8 % 256, n % 256]

/-- binary.BigEndian.PutUint64: big-endian bytes of n mod 2^64. -/
def putUint64 (n : Nat) : List Nat :=
  [n / 2 ^ 56 % 256, n / 2 ^ 48 % 256, n / 2 ^ 40 % 256, n / 2 ^ 32 % 256,
   n / 2 ^ 24 % 256, n / 2 ^ 16 % 256, n / 2 ^ 8 % 256, n % 256]

/-- dcp/DcpHandler.go, serializeMutation.  The Go code allocates a zero
buffer of size keyLen + BodyLength + 2 and writes the fields sequentially at
an advancing position: keyLen (2 bytes), key, seqno (8), revId (8), cas (8),
flags (4), expiry (4), opCode (2), datatype (2); the writes end at position
keyLen + 38 and the final copy places the SHA-512 body hash into the
remaining 64 bytes.  Because the writes tile the buffer, the result is the
concatenation of the fields.  The digest function sha512.Sum512 (crypto
library, always 64 bytes) is a parameter sha512Sum; the final copy has Go
copy semantics, so a digest shorter than the remaining space would leave
trailing zero bytes and a longer one would be truncated. -/
def serializeMutation (sha512Sum : List Nat → List Nat) (m : Mutation) : List Nat :=
  let keyLen := m.key.length
  let bodyHash := sha512Sum m.value
  putUint16 keyLen ++ m.key ++ putUint64 m.seqno ++ putUint64 m.revId ++
    putUint64 m.cas ++ putUint32 m.flags ++ putUint32 m.expiry ++
    putUint16 m.opCode ++ putUint16 m.datatype ++
    bodyHash.take 64 ++ List.replicate (64 - bodyHash.length) 0

/-- State of the checkpoint manager that HandleMutationEvent touches:
the run mode, the per-vbucket end seqnos and the per-vbucket seqno map
(dcp/CheckpointManager.go).  Maps are total functions on vbucket numbers. -/
structure CMState where
  completeBySeqno : Bool
  endSeqnoMap : Nat → Nat
  seqnoMap : Nat → Nat

/-- SeqnoWithLock.setSeqno on the seqno map: pointwise update at one vbucket. -/
def setSeqno (m : Nat → Nat) (vbno s : Nat) : Nat → Nat :=
  fun v => if v = vbno then s else m v

/-- Result of CheckpointManager.HandleMutationEvent: the returned validity
flag, the updated manager state, and the completion signal passed to
dcpDriver.handleVbucketCompletion (its reason string), if any. -/
structure HMEResult where
  valid : Bool
  cm : CMState
  completion : Option String

/-- dcp/CheckpointManager.go, CheckpointManager.HandleMutationEvent. -/
def HandleMutationEvent (cm : CMState) (m : Mutation) : HMEResult :=
  if cm.completeBySeqno then
    let endSeqno := cm.endSeqnoMap m.vbno
    let completion : Option String :=
      if endSeqno ≤ m.seqno then some "end seqno reached" else none
    if m.seqno ≤ endSeqno then
      { valid := true
        cm := { cm with seqnoMap := setSeqno cm.seqnoMap m.vbno m.seqno }
        completion := completion }
    else
      { valid := false, cm := cm, completion := completion }
  else
    { valid := true
      cm := { cm with seqnoMap := setSeqno cm.seqnoMap m.vbno m.seqno }
      completion := none }

/-- The part of a DcpHandler that processMutation reads: the checkpoint
manager state, the optional filter and the number of bins.  A filter is a
function from the event to (matched, error); FilterUprEvent of the xdcr
filter library returns (bool, error, string, int64) and processMutation
only inspects the first two components. -/
structure DcpHandlerState where
  cm : CMState
  filter : Option (Mutation → Bool × Option String)
  numberOfBins : Nat

/-- Observable outcome of DcpHandler.processMutation: the checkpoint manager
state afterwards, the completion signal (if any), the bin writes performed
(vbno, bin index, serialized bytes), and whether the event was logged as
filtered (the only effect the filter verdict has in the code). -/
structure ProcessResult where
  cm : CMState
  completion : Option String
  binWrites : List (Nat × Nat × List Nat)
  filteredLogged : Bool

/-- dcp/DcpHandler.go, DcpHandler.processMutation.  If a filter is
configured it is evaluated and a non-match (or error) is logged; the verdict
is otherwise unused (the Go code has a TODO for filter counts).  The event
is then always handed to HandleMutationEvent; if that returns false the
event is dropped, otherwise it is serialized and written to the bin chosen
by utils.GetBucketIndexFromKey.  That util is not part of the provided
sources; modelled from the spec as binIndex = keyHash(key) mod numberOfBins
for a stable hash function keyHash, passed as a parameter. -/
def processMutation (sha512Sum : List Nat → List Nat) (keyHash : List Nat → Nat)
    (dh : DcpHandlerState) (m : Mutation) : ProcessResult :=
  let filteredLogged :=
    match dh.filter with
    | some f => !(f m).1
    | none => false
  let r := HandleMutationEvent dh.cm m
  if r.valid then
    { cm := r.cm
      completion := r.completion
      binWrites := [(m.vbno, keyHash m.key % dh.numberOfBins, serializeMutation sha512Sum m)]
      filteredLogged := filteredLogged }
  else
    { cm := r.cm
      completion := r.completion
      binWrites := []
      filteredLogged := filteredLogged }

/-- dcp package, type Checkpoint (fields as used throughout
dcp/CheckpointManager.go): vbuuid, seqno and the snapshot window. -/
structure Checkpoint where
  Vbuuid : Nat
  Seqno : Nat
  SnapshotStartSeqno : Nat
  SnapshotEndSeqno : Nat
deriving DecidableEq

/-- dcp package, type CheckpointDoc: the per-vbucket checkpoint mapping.
The Go map from uint16 to Checkpoint is modelled as an association list;
map semantics correspond to a list whose keys are distinct. -/
structure CheckpointDoc where
  Checkpoints : List (Nat × Checkpoint)
deriving DecidableEq

/-- dcp/CheckpointManager.go, CheckpointManager.loadCheckpoints, validation
part.  Reading and JSON-decoding the file are I/O and are not modelled; the
function receives the decoded document and performs the only check the code
makes: a document with fewer than NumberOfVbuckets entries is rejected. -/
def loadCheckpoints (doc : CheckpointDoc) : Except String CheckpointDoc :=
  if doc.Checkpoints.length < NumberOfVbuckets then
    Except.error "checkpoint file has less than 1024 vbuckets."
  else
    Except.ok doc

/-- dcp package, type VBTS as used by setStartVBTS: the checkpoint to resume
from, the end seqno and the no-need-to-start-stream flag. -/
structure VBTS where
  ckpt : Checkpoint
  EndSeqno : Nat
  NoNeedToStartDcpStream : Bool
deriving DecidableEq

/-- Result of CheckpointManager.setStartVBTS: the start-VBTS map and the
seqno map after seeding. -/
structure StartVBTSState where
  startVBTS : Nat → Option VBTS
  seqnoMap : Nat → Nat

/-- dcp/CheckpointManager.go, CheckpointManager.setStartVBTS, loop body of
the branch taken when an old checkpoint file is configured: the entry
(vbno, checkpoint) of the loaded document yields a VBTS with EndSeqno from
endSeqnoMap and the NoNeedToStartDcpStream flag set when completeBySeqno
holds and checkpoint.Seqno has reached the end seqno, and seeds the seqno
map at vbno with checkpoint.Seqno.  Without an old checkpoint file (see
setStartVBTS below), every vbucket below NumberOfVbuckets receives a VBTS
whose checkpoint has all fields zero, and the seqno map is left as
initialized by NewCheckpointManager (all zero). -/
def startVBTSStep (completeBySeqno : Bool) (endSeqnoMap : Nat → Nat)
    (acc : StartVBTSState) (entry : Nat × Checkpoint) : StartVBTSState :=
  let vbno := entry.1
  let checkpoint := entry.2
  { startVBTS := fun v =>
      if v = vbno then
        some { ckpt := checkpoint
               EndSeqno := endSeqnoMap vbno
               NoNeedToStartDcpStream :=
                 completeBySeqno && decide (endSeqnoMap vbno ≤ checkpoint.Seqno) }
      else acc.startVBTS v
    seqnoMap := setSeqno acc.seqnoMap vbno checkpoint.Seqno }

/-- dcp/CheckpointManager.go, CheckpointManager.setStartVBTS, see
startVBTSStep for the loop body of the with-old-checkpoint branch. -/
def setStartVBTS (completeBySeqno : Bool) (endSeqnoMap : Nat → Nat)
    (seqnoMap0 : Nat → Nat) (old : Option CheckpointDoc) : StartVBTSState :=
  match old with
  | some doc =>
      doc.Checkpoints.foldl (startVBTSStep completeBySeqno endSeqnoMap)
        { startVBTS := fun _ => none, seqnoMap := seqnoMap0 }
  | none =>
      { startVBTS := fun v =>
          if v < NumberOfVbuckets then
            some { ckpt := { Vbuuid := 0, Seqno := 0, SnapshotStartSeqno := 0, SnapshotEndSeqno := 0 }
                   EndSeqno := endSeqnoMap v
                   NoNeedToStartDcpStream := false }
          else none
        seqnoMap := seqnoMap0 }

/-- State read by CheckpointManager.saveCheckpoint: the vbuuid map, the
seqno map, the current snapshot windows and the start-VBTS checkpoints. -/
structure CMSaveState where
  vbuuidMap : Nat → Nat
  seqnoMap : Nat → Nat
  snapshots : Nat → Nat × Nat
  startVBTS : Nat → Checkpoint

/-- dcp/CheckpointManager.go, CheckpointManager.saveCheckpoint, loop body:
the Checkpoint written for one vbucket.  If the current seqno differs from
the start-VBTS seqno the current snapshot window is used, otherwise the
start-VBTS snapshot window is preserved. -/
def saveCheckpoint (st : CMSaveState) (vbno : Nat) : Checkpoint :=
  let vbuuid := st.vbuuidMap vbno
  let seqno := st.seqnoMap vbno
  let curStartVBTS := st.startVBTS vbno
  if seqno ≠ curStartVBTS.Seqno then
    { Vbuuid := vbuuid
      Seqno := seqno
      SnapshotStartSeqno := (st.snapshots vbno).1
      SnapshotEndSeqno := (st.snapshots vbno).2 }
  else
    { Vbuuid := vbuuid
      Seqno := seqno
      SnapshotStartSeqno := curStartVBTS.SnapshotStartSeqno
      SnapshotEndSeqno := curStartVBTS.SnapshotEndSeqno }

/-- Checkpoint-manager state after a sequence of HandleMutationEvent calls
(the per-vbucket delivery order of the stream). -/
def processTrace (cm : CMState) (ms : List Mutation) : CMState :=
  ms.foldl (fun s m => (HandleMutationEvent s m).cm) cm

/-- dcp/DcpHandler.go, type Bucket: the fixed-size buffer (data), the next
write position (index) and, in place of the append-only file handle, the
bytes flushed so far. -/
structure Bucket where
  data : List Nat
  index : Nat
  fileBytes : List Nat
deriving DecidableEq

/-- Go builtin copy(dst[pos:], src): copies min(len(src), len(dst) - pos)
bytes of src into dst starting at pos; the destination keeps its length. -/
def goCopy (dst : List Nat) (pos : Nat) (src : List Nat) : List Nat :=
  let n := min src.length (dst.length - pos)
  dst.take pos ++ src.take n ++ dst.drop (pos + n)

/-- dcp/DcpHandler.go, Bucket.flushToFile with a successful complete write:
data up to index is appended to the file and index resets to 0.  (An I/O
error or a short write would surface as an error and is outside the pure
model; the claims quantify over runs in which writes succeed.) -/
def Bucket.flushToFile (b : Bucket) : Bucket :=
  { data := b.data, index := 0, fileBytes := b.fileBytes ++ b.data.take b.index }

/-- dcp/DcpHandler.go, Bucket.write.  cap is base.BucketBufferCapacity (the
base package is not part of the provided sources; the spec fixes only that
it is a positive constant, so it is a parameter).  If the item would
overflow the buffer, flush first; then copy the item at index (Go copy
semantics) and advance index by the full item length. -/
def Bucket.write (cap : Nat) (b : Bucket) (item : List Nat) : Bucket :=
  let b1 := if cap < b.index + item.length then b.flushToFile else b
  { data := goCopy b1.data b1.index item
    index := b1.index + item.length
    fileBytes := b1.fileBytes }

/-- Bytes a Bucket accounts for: flushed bytes followed by the live buffered
region data up to index. -/
def Bucket.contents (b : Bucket) : List Nat :=
  b.fileBytes ++ b.data.take b.index

/-- The buffer invariant of Bucket: the write position is within capacity
and the buffer has exactly the allocated capacity. -/
def Bucket.wf (cap : Nat) (b : Bucket) : Prop :=
  b.index ≤ cap ∧ b.data.length = cap

/-- A sequence of Bucket.write calls. -/
def Bucket.writeAll (cap : Nat) (b : Bucket) (items : List (List Nat)) : Bucket :=
  items.foldl (Bucket.write cap) b

/-- gocbcore.GetMetaResult, the fields the differ compares.  Deleted is a
uint32 in gocbcore; all scalars are Nat, the value is a byte list. -/
structure GetMetaResult where
  Value : List Nat
  Flags : Nat
  Datatype : Nat
  Cas : Nat
  Expiry : Nat
  SeqNo : Nat
  Deleted : Nat
deriving DecidableEq

/-- filterPool.go (package differ), type GetResult: the per-key response
slot filled by the metadata-get callback.  Key stays empty when no response
arrived; Result is nil (none) when the fetch returned no metadata. -/
structure GetResult where
  Key : String
  Result : Option GetMetaResult
  Error : Option String
deriving DecidableEq

/-- filterPool.go (package differ), isKeyNotFoundError: a non-nil error
whose message is the key-not-found message. -/
def isKeyNotFoundError (e : Option String) : Bool :=
  match e with
  | some msg => decide (msg = "key not found")
  | none => false

/-- filterPool.go (package differ), areGetMetaResultsTheSame.  A nil result
equals only a nil result; otherwise the fields Value (bytewise), Flags,
Datatype, Cas, Expiry, SeqNo and Deleted must all agree. -/
def areGetMetaResultsTheSame (result1 result2 : Option GetMetaResult) : Bool :=
  match result1, result2 with
  | none, none => true
  | none, some _ => false
  | some _, none => false
  | some r1, some r2 =>
      decide (r1.Value = r2.Value) && decide (r1.Flags = r2.Flags) &&
      decide (r1.Datatype = r2.Datatype) && decide (r1.Cas = r2.Cas) &&
      decide (r1.Expiry = r2.Expiry) && decide (r1.SeqNo = r2.SeqNo) &&
      decide (r1.Deleted = r2.Deleted)

/-- The three sections a DifferWorker accumulates, as association lists. -/
structure DiffMaps where
  missingFromSource : List (String × Option GetMetaResult)
  missingFromTarget : List (String × Option GetMetaResult)
  diff : List (String × (Option GetMetaResult × Option GetMetaResult))
deriving DecidableEq

/-- filterPool.go (package differ), DifferWorker.diff, loop body for one
key: skip keys without a response on either side; a key-not-found on
exactly one side goes to that side's missing section, storing the other
side's metadata; otherwise the metadata pair is recorded under diff when
areGetMetaResultsTheSame fails. -/
def diffStep (acc : DiffMaps) (key : String) (sourceResult targetResult : GetResult) : DiffMaps :=
  if sourceResult.Key = "" then acc
  else if targetResult.Key = "" then acc
  else if isKeyNotFoundError sourceResult.Error && !isKeyNotFoundError targetResult.Error then
    { acc with missingFromSource := acc.missingFromSource ++ [(key, targetResult.Result)] }
  else if !isKeyNotFoundError sourceResult.Error && isKeyNotFoundError targetResult.Error then
    { acc with missingFromTarget := acc.missingFromTarget ++ [(key, sourceResult.Result)] }
  else if !areGetMetaResultsTheSame sourceResult.Result targetResult.Result then
    { acc with diff := acc.diff ++ [(key, (sourceResult.Result, targetResult.Result))] }
  else acc

/-- filterPool.go (package differ), DifferWorker.diff: fold of diffStep over
the keys of the worker, reading both result maps. -/
def workerDiff (keys : List String) (sourceResults targetResults : String → GetResult) : DiffMaps :=
  keys.foldl (fun acc key => diffStep acc key (sourceResults key) (targetResults key))
    { missingFromSource := [], missingFromTarget := [], diff := [] }

/-- A concrete 64-byte digest function standing in for sha512.Sum512 in
closed evaluations (witnesses and counterexamples): 63 zero bytes followed
by the input length mod 256.  It is length-64 by construction and separates
the empty value from a 1-element value. -/
def testDigest (v : List Nat) : List Nat :=
  List.replicate 63 0 ++ [v.length % 256]

/-!
Theorems.
-/

/-- C1, counterexample.  A configured filter that rejects every event does
not drop the event: processMutation logs the non-match, still hands the
event to HandleMutationEvent (the seqno map advances to the event seqno)
and, the event being in range, serializes it and writes it to a bin.  This
contradicts the claim that a non-matching event is not passed to
handleMutation and not written to any bin. -/
theorem C1_filter_counterexample :
    (processMutation testDigest (fun _ => 0)
      ⟨⟨true, fun _ => 100, fun _ => 0⟩, some (fun _ => (false, none)), 10⟩
      ⟨0, [107], 5, 1, 1, 0, 0, 0x57, [42], 0⟩).filteredLogged = true ∧
    (processMutation testDigest (fun _ => 0)
      ⟨⟨true, fun _ => 100, fun _ => 0⟩, some (fun _ => (false, none)), 10⟩
      ⟨0, [107], 5, 1, 1, 0, 0, 0x57, [42], 0⟩).binWrites ≠ [] ∧
    (processMutation testDigest (fun _ => 0)
      ⟨⟨true, fun _ => 100, fun _ => 0⟩, some (fun _ => (false, none)), 10⟩
      ⟨0, [107], 5, 1, 1, 0, 0, 0x57, [42], 0⟩).cm.seqnoMap 0 = 5 := by
  refine ⟨rfl, ?_, rfl⟩
  decide

/-- C1, amended: the filter verdict has no effect on checkpointing or
binning.  For every handler state, processMutation passes the event to
HandleMutationEvent unconditionally (its state and completion signal are
those of HandleMutationEvent, so the seqno map advances for every accepted
event, filtered or not), and the event is serialized and written to its bin
exactly when HandleMutationEvent accepts it; the filter verdict only
determines whether a filtered log line is emitted. -/
theorem C1_filter_only_logs (sha512Sum : List Nat → List Nat) (keyHash : List Nat → Nat)
    (dh : DcpHandlerState) (m : Mutation) :
    (processMutation sha512Sum keyHash dh m).cm = (HandleMutationEvent dh.cm m).cm ∧
    (processMutation sha512Sum keyHash dh m).completion = (HandleMutationEvent dh.cm m).completion ∧
    (processMutation sha512Sum keyHash dh m).binWrites =
      (if (HandleMutationEvent dh.cm m).valid then
        [(m.vbno, keyHash m.key % dh.numberOfBins, serializeMutation sha512Sum m)]
      else []) ∧
    (processMutation sha512Sum keyHash dh m).filteredLogged =
      (match dh.filter with
       | some f => !(f m).1
       | none => false) := by
  unfold processMutation
  cases h : (HandleMutationEvent dh.cm m).valid <;> simp [h]

/-- C2: HandleMutationEvent in seqno mode signals completion with reason
end seqno reached when the seqno has reached the end seqno, accepts and
records any seqno at most the end seqno, and rejects a seqno beyond the end
seqno leaving the state unchanged, in which case processMutation writes
nothing to any bin; in duration mode every mutation is recorded and
accepted. -/
theorem C2_HandleMutationEvent_spec (cm : CMState) (m : Mutation) :
    (cm.completeBySeqno = true →
      ((cm.endSeqnoMap m.vbno ≤ m.seqno →
          (HandleMutationEvent cm m).completion = some "end seqno reached") ∧
       (m.seqno ≤ cm.endSeqnoMap m.vbno →
          (HandleMutationEvent cm m).valid = true ∧
          (HandleMutationEvent cm m).cm.seqnoMap m.vbno = m.seqno) ∧
       (cm.endSeqnoMap m.vbno < m.seqno →
          (HandleMutationEvent cm m).valid = false ∧
          (HandleMutationEvent cm m).cm = cm ∧
          ∀ (sha512Sum : List Nat → List Nat) (keyHash : List Nat → Nat)
            (f : Option (Mutation → Bool × Option String)) (nb : Nat),
            (processMutation sha512Sum keyHash ⟨cm, f, nb⟩ m).binWrites = []))) ∧
    (cm.completeBySeqno = false →
      (HandleMutationEvent cm m).valid = true ∧
      (HandleMutationEvent cm m).cm.seqnoMap m.vbno = m.seqno ∧
      (HandleMutationEvent cm m).completion = none) := by
  constructor
  · intro hmode
    refine ⟨fun hge => ?_, fun hle => ?_, fun hgt => ?_⟩
    · unfold HandleMutationEvent
      simp only [hmode, if_true]
      split_ifs with h <;> simp [hge]
    · unfold HandleMutationEvent
      simp [hmode, hle, setSeqno]
    · have hnot : ¬ (m.seqno ≤ cm.endSeqnoMap m.vbno) := by omega
      refine ⟨?_, ?_, ?_⟩
      · unfold HandleMutationEvent
        simp [hmode, hnot]
      · unfold HandleMutationEvent
        simp [hmode, hnot]
      · intro sha512Sum keyHash f nb
        unfold processMutation HandleMutationEvent
        simp [hmode, hnot]
  · intro hmode
    unfold HandleMutationEvent
    simp [hmode, setSeqno]

/-- C2, witness: a concrete seqno-mode state with end seqno 100 and a
mutation at exactly seqno 100: completion is signaled, the event is
accepted and recorded. -/
theorem C2_HandleMutationEvent_witness :
    (HandleMutationEvent ⟨true, fun _ => 100, fun _ => 0⟩ ⟨0, [1], 100, 2, 3, 4, 5, 0x57, [9], 0⟩).completion
        = some "end seqno reached" ∧
    (HandleMutationEvent ⟨true, fun _ => 100, fun _ => 0⟩ ⟨0, [1], 100, 2, 3, 4, 5, 0x57, [9], 0⟩).valid = true ∧
    (HandleMutationEvent ⟨true, fun _ => 100, fun _ => 0⟩ ⟨0, [1], 100, 2, 3, 4, 5, 0x57, [9], 0⟩).cm.seqnoMap 0 = 100 := by
  have h := C2_HandleMutationEvent_spec ⟨true, fun _ => 100, fun _ => 0⟩
    ⟨0, [1], 100, 2, 3, 4, 5, 0x57, [9], 0⟩
  exact ⟨(h.1 rfl).1 (by decide), ((h.1 rfl).2.1 (by decide)).1, ((h.1 rfl).2.1 (by decide)).2⟩

/-- C3, counterexample.  A checkpoint document with 1025 entries, one more
than NumberOfVbuckets, is accepted by loadCheckpoints, contradicting the
claim that a document whose entry count differs from 1024 in either
direction is rejected. -/
theorem C3_load_counterexample :
    loadCheckpoints ⟨(List.range 1025).map (fun i => (i, ⟨0, 0, 0, 0⟩))⟩
        = Except.ok ⟨(List.range 1025).map (fun i => (i, ⟨0, 0, 0, 0⟩))⟩ ∧
    ((⟨(List.range 1025).map (fun i => (i, ⟨0, 0, 0, 0⟩))⟩ : CheckpointDoc)).Checkpoints.length
        ≠ NumberOfVbuckets := by
  constructor
  · unfold loadCheckpoints
    simp [NumberOfVbuckets]
  · simp [NumberOfVbuckets]

/-- C3, amended: loading an old checkpoint document succeeds exactly when
it contains at least NumberOfVbuckets = 1024 entries; a document with fewer
entries is rejected with an error, while a document with more entries is
accepted. -/
theorem C3_load_at_least (doc : CheckpointDoc) :
    loadCheckpoints doc = Except.ok doc ↔ NumberOfVbuckets ≤ doc.Checkpoints.length := by
  unfold loadCheckpoints
  split_ifs with h
  · constructor
    · intro hcontra
      cases hcontra
    · intro hle
      omega
  · constructor
    · intro _
      omega
    · intro _
      rfl

/-- C4: the checkpoint saved for a vbucket preserves the start-VBTS
snapshot window exactly when the seqno map equals the start-VBTS seqno (no
progress made), and uses the current snapshot window otherwise; for an
unprogressed vbucket whose start-VBTS checkpoint satisfies the resume
invariant snapStart less-or-equal seqno less-or-equal snapEnd, the saved
checkpoint satisfies it as well. -/
theorem C4_saveCheckpoint_snapshot (st : CMSaveState) (vbno : Nat) :
    (st.seqnoMap vbno = (st.startVBTS vbno).Seqno →
       saveCheckpoint st vbno =
         { Vbuuid := st.vbuuidMap vbno
           Seqno := st.seqnoMap vbno
           SnapshotStartSeqno := (st.startVBTS vbno).SnapshotStartSeqno
           SnapshotEndSeqno := (st.startVBTS vbno).SnapshotEndSeqno } ∧
       ((st.startVBTS vbno).SnapshotStartSeqno ≤ (st.startVBTS vbno).Seqno →
        (st.startVBTS vbno).Seqno ≤ (st.startVBTS vbno).SnapshotEndSeqno →
          (saveCheckpoint st vbno).SnapshotStartSeqno ≤ (saveCheckpoint st vbno).Seqno ∧
          (saveCheckpoint st vbno).Seqno ≤ (saveCheckpoint st vbno).SnapshotEndSeqno)) ∧
    (st.seqnoMap vbno ≠ (st.startVBTS vbno).Seqno →
       saveCheckpoint st vbno =
         { Vbuuid := st.vbuuidMap vbno
           Seqno := st.seqnoMap vbno
           SnapshotStartSeqno := (st.snapshots vbno).1
           SnapshotEndSeqno := (st.snapshots vbno).2 }) := by
  constructor
  · intro heq
    have hsave : saveCheckpoint st vbno =
        { Vbuuid := st.vbuuidMap vbno
          Seqno := st.seqnoMap vbno
          SnapshotStartSeqno := (st.startVBTS vbno).SnapshotStartSeqno
          SnapshotEndSeqno := (st.startVBTS vbno).SnapshotEndSeqno } := by
      unfold saveCheckpoint
      simp [heq]
    refine ⟨hsave, fun h1 h2 => ?_⟩
    rw [hsave]
    simp only []
    constructor <;> omega
  · intro hne
    unfold saveCheckpoint
    simp [hne]

/-- C4, witness: an unprogressed vbucket (seqno map 3 equals the start-VBTS
seqno 3, snapshot window 2..4) keeps the start-VBTS snapshot pair and the
resume invariant; a progressed state (seqno map 9) uses the current window
10..20. -/
theorem C4_saveCheckpoint_witness :
    saveCheckpoint ⟨fun _ => 7, fun _ => 3, fun _ => (10, 20), fun _ => ⟨7, 3, 2, 4⟩⟩ 0 = ⟨7, 3, 2, 4⟩ ∧
    (saveCheckpoint ⟨fun _ => 7, fun _ => 3, fun _ => (10, 20), fun _ => ⟨7, 3, 2, 4⟩⟩ 0).SnapshotStartSeqno
      ≤ (saveCheckpoint ⟨fun _ => 7, fun _ => 3, fun _ => (10, 20), fun _ => ⟨7, 3, 2, 4⟩⟩ 0).Seqno ∧
    saveCheckpoint ⟨fun _ => 7, fun _ => 9, fun _ => (10, 20), fun _ => ⟨7, 3, 2, 4⟩⟩ 0 = ⟨7, 9, 10, 20⟩ := by
  have h1 := C4_saveCheckpoint_snapshot ⟨fun _ => 7, fun _ => 3, fun _ => (10, 20), fun _ => ⟨7, 3, 2, 4⟩⟩ 0
  have h2 := C4_saveCheckpoint_snapshot ⟨fun _ => 7, fun _ => 9, fun _ => (10, 20), fun _ => ⟨7, 3, 2, 4⟩⟩ 0
  exact ⟨(h1.1 (by decide)).1, ((h1.1 (by decide)).2 (by decide) (by decide)).1, h2.2 (by decide)⟩

/-- C6: the code drops the datatype.  CreateMutation omits the datatype
field from its struct literal, so a stream mutation callback carrying
datatype 5 produces a Mutation with datatype 0, and the datatype field of
the binned record (bytes 37 and 38 for a 1-byte key) is 0, not 5.  This
evaluates the code at the failing input of the code_bug verdict. -/
theorem C6_datatype_dropped :
    (onMutation 10 2 0 0 0 7 5 0 [1] [2]).datatype = 0 ∧
    (5 : Nat) ≠ 0 ∧
    ((serializeMutation testDigest (onMutation 10 2 0 0 0 7 5 0 [1] [2])).drop 37).take 2 = [0, 0] := by
  refine ⟨rfl, by decide, ?_⟩
  decide

/-- serializeMutation with a 64-byte digest is the plain concatenation of
the record fields: the truncating take is a no-op and no padding is left. -/
theorem serializeMutation_eq (sha512Sum : List Nat → List Nat) (m : Mutation)
    (h64 : (sha512Sum m.value).length = 64) :
    serializeMutation sha512Sum m =
      putUint16 m.key.length ++ m.key ++ putUint64 m.seqno ++ putUint64 m.revId ++
        putUint64 m.cas ++ putUint32 m.flags ++ putUint32 m.expiry ++
        putUint16 m.opCode ++ putUint16 m.datatype ++ sha512Sum m.value := by
  simp only [serializeMutation]
  rw [List.take_of_length_le (le_of_eq h64), h64]
  simp

/-- Length of a serialized record with a 64-byte digest: 102 plus the key
length (2 for the keyLen field, 36 for the scalar fields, 64 for the
digest). -/
theorem serializeMutation_length (sha512Sum : List Nat → List Nat) (m : Mutation)
    (h64 : (sha512Sum m.value).length = 64) :
    (serializeMutation sha512Sum m).length = 102 + m.key.length := by
  rw [serializeMutation_eq sha512Sum m h64]
  simp [putUint16, putUint32, putUint64, h64]
  omega

/-- C5, amended: for every 64-byte digest function in place of SHA-512, the
serialized binned record is exactly the big-endian layout keyLen:u16, key,
seqno:u64, revId:u64, cas:u64, flags:u32, expiry:u32, opCode:u16,
datatype:u16, bodyHash:64, with total length 102 + keyLen (not 104 +
keyLen); the bodyHash is the digest of the value, so expiration records
(nil value) hash the empty string while deletion records hash the
callback-supplied value, which need not be empty. -/
theorem C5_serialize_layout (sha512Sum : List Nat → List Nat)
    (h64 : ∀ v, (sha512Sum v).length = 64) :
    (∀ m : Mutation, serializeMutation sha512Sum m =
        putUint16 m.key.length ++ m.key ++ putUint64 m.seqno ++ putUint64 m.revId ++
          putUint64 m.cas ++ putUint32 m.flags ++ putUint32 m.expiry ++
          putUint16 m.opCode ++ putUint16 m.datatype ++ sha512Sum m.value) ∧
    (∀ m : Mutation, (serializeMutation sha512Sum m).length = 102 + m.key.length ∧
        (serializeMutation sha512Sum m).length = m.key.length + BodyLength + 2) ∧
    (∀ seqno revId cas vbno key,
        serializeMutation sha512Sum (onExpiration seqno revId cas vbno key) =
          putUint16 key.length ++ key ++ putUint64 seqno ++ putUint64 revId ++
            putUint64 cas ++ putUint32 0 ++ putUint32 0 ++ putUint16 UPR_EXPIRATION ++
            putUint16 0 ++ sha512Sum []) ∧
    (∀ seqno revId cas datatype vbno key value,
        serializeMutation sha512Sum (onDeletion seqno revId cas datatype vbno key value) =
          putUint16 key.length ++ key ++ putUint64 seqno ++ putUint64 revId ++
            putUint64 cas ++ putUint32 0 ++ putUint32 0 ++ putUint16 UPR_DELETION ++
            putUint16 0 ++ sha512Sum value) := by
  refine ⟨fun m => serializeMutation_eq sha512Sum m (h64 m.value), fun m => ?_, ?_, ?_⟩
  · have hl := serializeMutation_length sha512Sum m (h64 m.value)
    exact ⟨hl, by rw [hl]; unfold BodyLength; omega⟩
  · intro seqno revId cas vbno key
    have h := serializeMutation_eq sha512Sum (onExpiration seqno revId cas vbno key)
      (h64 (onExpiration seqno revId cas vbno key).value)
    simpa [onExpiration, CreateMutation] using h
  · intro seqno revId cas datatype vbno key value
    have h := serializeMutation_eq sha512Sum (onDeletion seqno revId cas datatype vbno key value)
      (h64 (onDeletion seqno revId cas datatype vbno key value).value)
    simpa [onDeletion, CreateMutation] using h

/-- C5, witness: with the concrete 64-byte digest testDigest, a record with
a one-byte key serializes to 103 = 102 + 1 bytes. -/
theorem C5_serialize_layout_witness :
    (serializeMutation testDigest ⟨0, [107], 1, 2, 3, 4, 5, 0x57, [9], 0⟩).length = 102 + 1 :=
  ((C5_serialize_layout testDigest (fun v => by simp [testDigest])).2.1
    ⟨0, [107], 1, 2, 3, 4, 5, 0x57, [9], 0⟩).1

set_option maxRecDepth 8192 in
/-- C5, counterexample.  The claim's stated total of 104 + keyLen is wrong:
the record for a one-byte key has 103 bytes, not 105 (the field list sums
to 102 + keyLen).  Moreover a deletion record whose stream callback
supplied a non-empty value carries the digest of that value, not the digest
of the empty string: the last 64 bytes of the record equal testDigest
applied to the value 42, which differs from testDigest of the empty
value. -/
theorem C5_serialize_counterexample :
    (serializeMutation testDigest ⟨0, [107], 1, 2, 3, 4, 5, 0x57, [], 0⟩).length ≠ 104 + 1 ∧
    (serializeMutation testDigest ⟨0, [107], 1, 2, 3, 4, 5, 0x57, [], 0⟩).length = 102 + 1 ∧
    (serializeMutation testDigest (onDeletion 1 2 3 0 0 [107] [42])).drop 39 = testDigest [42] ∧
    testDigest [42] ≠ testDigest [] := by
  refine ⟨by decide, by decide, by decide, by decide⟩

/-- areGetMetaResultsTheSame on two non-nil results decides equality of the
compared tuple (Value, Flags, Datatype, Cas, Expiry, SeqNo, Deleted), which
is all of GetMetaResult. -/
theorem areSame_some_iff (a b : GetMetaResult) :
    areGetMetaResultsTheSame (some a) (some b) = true ↔ a = b := by
  cases a
  cases b
  simp only [areGetMetaResultsTheSame, Bool.and_eq_true, decide_eq_true_eq,
    GetMetaResult.mk.injEq]
  tauto

/-- C7: per-key classification of DifferWorker.diff, for a key with a
response from both clusters (both Key fields non-empty), assuming the
metadata-get contract that a key-not-found response carries a nil result.
Key not found on exactly one side adds the key to that side's missing
section, storing the other side's metadata; if both sides returned
metadata, the pair lands under the diff (Mismatch) section exactly when the
compared tuple differs; if both sides report key not found the key is
recorded nowhere. -/
theorem C7_diffStep_classification (acc : DiffMaps) (key : String) (s t : GetResult)
    (hs : s.Key ≠ "") (ht : t.Key ≠ "")
    (hsr : isKeyNotFoundError s.Error = true → s.Result = none)
    (htr : isKeyNotFoundError t.Error = true → t.Result = none) :
    (isKeyNotFoundError s.Error = true → isKeyNotFoundError t.Error = false →
       diffStep acc key s t =
         { acc with missingFromSource := acc.missingFromSource ++ [(key, t.Result)] }) ∧
    (isKeyNotFoundError s.Error = false → isKeyNotFoundError t.Error = true →
       diffStep acc key s t =
         { acc with missingFromTarget := acc.missingFromTarget ++ [(key, s.Result)] }) ∧
    (∀ m1 m2, s.Result = some m1 → t.Result = some m2 →
       (m1 ≠ m2 → diffStep acc key s t =
           { acc with diff := acc.diff ++ [(key, (s.Result, t.Result))] }) ∧
       (m1 = m2 → diffStep acc key s t = acc)) ∧
    (isKeyNotFoundError s.Error = true → isKeyNotFoundError t.Error = true →
       diffStep acc key s t = acc) := by
  refine ⟨fun h1 h2 => ?_, fun h1 h2 => ?_, fun m1 m2 hm1 hm2 => ?_, fun h1 h2 => ?_⟩
  · unfold diffStep
    simp [hs, ht, h1, h2]
  · unfold diffStep
    simp [hs, ht, h1, h2]
  · have h1 : isKeyNotFoundError s.Error = false := by
      cases hval : isKeyNotFoundError s.Error
      · rfl
      · simp [hsr hval] at hm1
    have h2 : isKeyNotFoundError t.Error = false := by
      cases hval : isKeyNotFoundError t.Error
      · rfl
      · simp [htr hval] at hm2
    constructor
    · intro hne
      have hsame : areGetMetaResultsTheSame s.Result t.Result = false := by
        rw [hm1, hm2]
        cases h : areGetMetaResultsTheSame (some m1) (some m2)
        · rfl
        · exact absurd ((areSame_some_iff m1 m2).mp h) hne
      unfold diffStep
      simp [hs, ht, h1, h2, hsame]
    · intro heq
      have hsame : areGetMetaResultsTheSame s.Result t.Result = true := by
        rw [hm1, hm2]
        exact (areSame_some_iff m1 m2).mpr heq
      unfold diffStep
      simp [hs, ht, h1, h2, hsame]
  · have hn1 := hsr h1
    have hn2 := htr h2
    have hsame : areGetMetaResultsTheSame s.Result t.Result = true := by
      rw [hn1, hn2]
      rfl
    unfold diffStep
    simp [hs, ht, h1, h2, hsame]

/-- C7, witness: concrete per-key outcomes.  Source key-not-found with
target metadata lands in missingFromSource with the target metadata; both
sides with differing metadata land under diff; both sides key-not-found
record nothing. -/
theorem C7_diffStep_witness :
    diffStep ⟨[], [], []⟩ "k" ⟨"k", none, some "key not found"⟩
        ⟨"k", some ⟨[1], 2, 3, 4, 5, 6, 0⟩, none⟩ =
      ⟨[("k", some ⟨[1], 2, 3, 4, 5, 6, 0⟩)], [], []⟩ ∧
    diffStep ⟨[], [], []⟩ "k" ⟨"k", some ⟨[7], 2, 3, 4, 5, 6, 0⟩, none⟩
        ⟨"k", some ⟨[1], 2, 3, 4, 5, 6, 0⟩, none⟩ =
      ⟨[], [], [("k", (some ⟨[7], 2, 3, 4, 5, 6, 0⟩, some ⟨[1], 2, 3, 4, 5, 6, 0⟩))]⟩ ∧
    diffStep ⟨[], [], []⟩ "k" ⟨"k", none, some "key not found"⟩
        ⟨"k", none, some "key not found"⟩ = ⟨[], [], []⟩ := by
  have ha := C7_diffStep_classification ⟨[], [], []⟩ "k" ⟨"k", none, some "key not found"⟩
    ⟨"k", some ⟨[1], 2, 3, 4, 5, 6, 0⟩, none⟩ (by decide) (by decide) (by decide) (by decide)
  have hb := C7_diffStep_classification ⟨[], [], []⟩ "k" ⟨"k", some ⟨[7], 2, 3, 4, 5, 6, 0⟩, none⟩
    ⟨"k", some ⟨[1], 2, 3, 4, 5, 6, 0⟩, none⟩ (by decide) (by decide) (by decide) (by decide)
  have hc := C7_diffStep_classification ⟨[], [], []⟩ "k" ⟨"k", none, some "key not found"⟩
    ⟨"k", none, some "key not found"⟩ (by decide) (by decide) (by decide) (by decide)
  refine ⟨(ha.1 (by decide) (by decide)).trans (by decide), ?_, hc.2.2.2 (by decide) (by decide)⟩
  exact (((hb.2.2.1 ⟨[7], 2, 3, 4, 5, 6, 0⟩ ⟨[1], 2, 3, 4, 5, 6, 0⟩ rfl rfl).1 (by decide)).trans
    (by decide))

/-- Folding the setStartVBTS loop over entries none of which concern
vbucket v leaves both maps unchanged at v. -/
theorem foldl_startVBTS_not_mem (cbs : Bool) (esm : Nat → Nat) :
    ∀ (l : List (Nat × Checkpoint)) (acc : StartVBTSState) (v : Nat),
      (∀ e ∈ l, e.1 ≠ v) →
      (l.foldl (startVBTSStep cbs esm) acc).startVBTS v = acc.startVBTS v ∧
      (l.foldl (startVBTSStep cbs esm) acc).seqnoMap v = acc.seqnoMap v := by
  intro l
  induction l with
  | nil => exact fun acc v _ => ⟨rfl, rfl⟩
  | cons e rest ih =>
      intro acc v hne
      have he : e.1 ≠ v := hne e (by simp)
      have hrest : ∀ x ∈ rest, x.1 ≠ v := fun x hx => hne x (by simp [hx])
      have hr := ih (startVBTSStep cbs esm acc e) v hrest
      refine ⟨?_, ?_⟩
      · rw [List.foldl_cons, hr.1]
        unfold startVBTSStep
        simp [Ne.symm he]
      · rw [List.foldl_cons, hr.2]
        unfold startVBTSStep
        simp [setSeqno, Ne.symm he]

/-- Folding the setStartVBTS loop over entries with distinct vbucket keys:
the entry of vbucket vbno determines the final VBTS and seeded seqno at
vbno. -/
theorem foldl_startVBTS_mem (cbs : Bool) (esm : Nat → Nat) :
    ∀ (l : List (Nat × Checkpoint)) (acc : StartVBTSState) (vbno : Nat) (c : Checkpoint),
      (vbno, c) ∈ l → (l.map Prod.fst).Nodup →
      (l.foldl (startVBTSStep cbs esm) acc).startVBTS vbno =
        some ⟨c, esm vbno, cbs && decide (esm vbno ≤ c.Seqno)⟩ ∧
      (l.foldl (startVBTSStep cbs esm) acc).seqnoMap vbno = c.Seqno := by
  intro l
  induction l with
  | nil =>
      intro acc vbno c hmem _
      exact absurd hmem (List.not_mem_nil _)
  | cons e rest ih =>
      intro acc vbno c hmem hnodup
      rw [List.map_cons, List.nodup_cons] at hnodup
      rcases List.mem_cons.mp hmem with heq | hmem2
      · obtain ⟨a, b⟩ := e
        cases heq
        have hnot : ∀ x ∈ rest, x.1 ≠ vbno := by
          intro x hx hx1
          have hm : x.1 ∈ rest.map Prod.fst := List.mem_map_of_mem Prod.fst hx
          rw [hx1] at hm
          exact hnodup.1 hm
        rw [List.foldl_cons]
        have hpres := foldl_startVBTS_not_mem cbs esm rest
          (startVBTSStep cbs esm acc (vbno, c)) vbno hnot
        rw [hpres.1, hpres.2]
        unfold startVBTSStep
        simp [setSeqno]
      · rw [List.foldl_cons]
        exact ih (startVBTSStep cbs esm acc e) vbno c hmem2 hnodup.2

/-- C9: with an old checkpoint document (distinct vbucket keys, entry
(vbno, c) present), setStartVBTS builds the start-VBTS for vbno from c with
EndSeqno from the end-seqno map and the NoNeedToStartDcpStream flag set
exactly when the run is seqno-bounded and c.Seqno has reached the end
seqno, and seeds the seqno map at vbno with c.Seqno; without an old
checkpoint document, every vbucket below NumberOfVbuckets receives an
all-zero checkpoint and the seqno map is untouched (it stays at its
initialization value 0). -/
theorem C9_setStartVBTS_spec (cbs : Bool) (esm : Nat → Nat) (sm0 : Nat → Nat)
    (doc : CheckpointDoc) (vbno : Nat) (c : Checkpoint) :
    ((vbno, c) ∈ doc.Checkpoints → (doc.Checkpoints.map Prod.fst).Nodup →
       (setStartVBTS cbs esm sm0 (some doc)).startVBTS vbno =
           some ⟨c, esm vbno, cbs && decide (esm vbno ≤ c.Seqno)⟩ ∧
       (setStartVBTS cbs esm sm0 (some doc)).seqnoMap vbno = c.Seqno) ∧
    (∀ v, v < NumberOfVbuckets →
       (setStartVBTS cbs esm sm0 none).startVBTS v =
           some ⟨⟨0, 0, 0, 0⟩, esm v, false⟩ ∧
       (setStartVBTS cbs esm sm0 none).seqnoMap v = sm0 v) := by
  constructor
  · intro hmem hnodup
    exact foldl_startVBTS_mem cbs esm doc.Checkpoints
      { startVBTS := fun _ => none, seqnoMap := sm0 } vbno c hmem hnodup
  · intro v hv
    unfold setStartVBTS
    simp [hv]

/-- C9, witness: a two-entry document in seqno mode with end seqno 5
everywhere: vbucket 0 resumes from checkpoint seqno 5, so its seqno map is
seeded to 5 and the no-need-to-start-stream flag is set; without a
document, vbucket 3 gets the all-zero checkpoint and seqno map 0. -/
theorem C9_setStartVBTS_witness :
    (setStartVBTS true (fun _ => 5) (fun _ => 0)
        (some ⟨[(0, ⟨11, 5, 2, 6⟩), (1, ⟨0, 0, 0, 0⟩)]⟩)).startVBTS 0 =
      some ⟨⟨11, 5, 2, 6⟩, 5, true⟩ ∧
    (setStartVBTS true (fun _ => 5) (fun _ => 0)
        (some ⟨[(0, ⟨11, 5, 2, 6⟩), (1, ⟨0, 0, 0, 0⟩)]⟩)).seqnoMap 0 = 5 ∧
    (setStartVBTS true (fun _ => 5) (fun _ => 0) none).startVBTS 3 =
      some ⟨⟨0, 0, 0, 0⟩, 5, false⟩ ∧
    (setStartVBTS true (fun _ => 5) (fun _ => 0) none).seqnoMap 3 = 0 := by
  have h := C9_setStartVBTS_spec true (fun _ => 5) (fun _ => 0)
    ⟨[(0, ⟨11, 5, 2, 6⟩), (1, ⟨0, 0, 0, 0⟩)]⟩ 0 ⟨11, 5, 2, 6⟩
  have h1 := h.1 (by decide) (by decide)
  have h2 := h.2 3 (by decide)
  exact ⟨h1.1.trans (by decide), h1.2, h2.1, h2.2⟩

/-- Taking the length of the left part plus k from an append takes the left
part whole and k elements of the right part. -/
theorem take_append_add (l1 l2 : List Nat) (k : Nat) :
    (l1 ++ l2).take (l1.length + k) = l1 ++ l2.take k := by
  induction l1 with
  | nil => simp
  | cons a rest ih =>
      simp only [List.length_cons, List.cons_append]
      rw [show rest.length + 1 + k = (rest.length + k) + 1 from by omega]
      simp [ih]

/-- Taking exactly the length of the left part from an append returns the
left part. -/
theorem take_append_exact (l1 l2 : List Nat) (n : Nat) (h : l1.length = n) :
    (l1 ++ l2).take n = l1 := by
  subst h
  rw [show l1.length = l1.length + 0 from by omega, take_append_add]
  simp

/-- Taking left-length plus middle-length from a three-part append returns
the first two parts. -/
theorem take_append_append (l1 l2 l3 : List Nat) (i : Nat) (h : l1.length = i) :
    (l1 ++ l2 ++ l3).take (i + l2.length) = l1 ++ l2 := by
  subst h
  exact take_append_exact (l1 ++ l2) l3 (l1.length + l2.length) (by simp)

/-- One Bucket.write of an item that fits the buffer preserves the buffer
invariant and appends exactly the item to the accounted bytes. -/
theorem Bucket.write_step (cap : Nat) (b : Bucket) (item : List Nat)
    (hwf : b.wf cap) (hlen : item.length ≤ cap) :
    (b.write cap item).wf cap ∧ (b.write cap item).contents = b.contents ++ item := by
  obtain ⟨hidx, hdata⟩ := hwf
  by_cases hov : cap < b.index + item.length
  · have hs : b.write cap item =
        { data := item ++ b.data.drop item.length
          index := item.length
          fileBytes := b.fileBytes ++ b.data.take b.index } := by
      unfold Bucket.write Bucket.flushToFile goCopy
      simp [hov]
      rw [show item.length ⊓ b.data.length = item.length from by
        rw [hdata]; exact min_eq_left hlen]
      simp
    rw [hs]
    refine ⟨⟨hlen, ?_⟩, ?_⟩
    · simp only [List.length_append, List.length_drop]
      omega
    · unfold Bucket.contents
      rw [take_append_exact item _ item.length rfl]
  · have hle : b.index + item.length ≤ cap := by omega
    have hn : min item.length (b.data.length - b.index) = item.length := by omega
    have hs : b.write cap item =
        { data := b.data.take b.index ++ item ++ b.data.drop (b.index + item.length)
          index := b.index + item.length
          fileBytes := b.fileBytes } := by
      unfold Bucket.write goCopy
      simp [hov, hn]
    rw [hs]
    have hti : (b.data.take b.index).length = b.index := by
      rw [List.length_take]
      omega
    refine ⟨⟨hle, ?_⟩, ?_⟩
    · simp only [List.length_append, List.length_take, List.length_drop]
      omega
    · unfold Bucket.contents
      dsimp only
      rw [take_append_append (b.data.take b.index) item
        (b.data.drop (b.index + item.length)) b.index hti]
      simp [List.append_assoc]

/-- One Bucket.write of an item longer than the buffer capacity breaks the
invariant: the index advances to the item length, past the capacity, while
the copy into the buffer is truncated to cap bytes, so the accounted bytes
gain only a strict prefix of the item. -/
theorem Bucket.write_overflow (cap : Nat) (b : Bucket) (item : List Nat)
    (hwf : b.wf cap) (hbig : cap < item.length) :
    cap < (b.write cap item).index ∧
    (b.write cap item).contents = b.contents ++ item.take cap ∧
    (b.write cap item).contents ≠ b.contents ++ item := by
  obtain ⟨hidx, hdata⟩ := hwf
  have hov : cap < b.index + item.length := by omega
  have hs : b.write cap item =
      { data := item.take cap ++ b.data.drop cap
        index := item.length
        fileBytes := b.fileBytes ++ b.data.take b.index } := by
    unfold Bucket.write Bucket.flushToFile goCopy
    simp [hov]
    rw [show item.length ⊓ b.data.length = cap from by
      rw [hdata]; exact min_eq_right (le_of_lt hbig)]
  have hdrop : b.data.drop cap = [] := by
    apply List.drop_eq_nil_of_le
    omega
  have hcont : (b.write cap item).contents = b.contents ++ item.take cap := by
    rw [hs]
    unfold Bucket.contents
    simp only [hdrop, List.append_nil]
    rw [List.take_take, Nat.min_eq_right (le_of_lt hbig)]
  refine ⟨by rw [hs]; exact hbig, hcont, ?_⟩
  rw [hcont]
  intro hcontra
  have heq : item.take cap = item := List.append_cancel_left hcontra
  have := congrArg List.length heq
  rw [List.length_take] at this
  omega

/-- A sequence of Bucket.write calls whose items all fit the buffer
preserves the invariant and accounts for the exact concatenation of the
items. -/
theorem Bucket.writeAll_wf_contents (cap : Nat) :
    ∀ (l : List (List Nat)) (b : Bucket), b.wf cap → (∀ it ∈ l, it.length ≤ cap) →
      (b.writeAll cap l).wf cap ∧
      (b.writeAll cap l).contents = b.contents ++ l.flatten := by
  intro l
  induction l with
  | nil =>
      intro b hwf _
      exact ⟨hwf, by simp [Bucket.writeAll]⟩
  | cons a rest ih =>
      intro b hwf hl
      have hstep := Bucket.write_step cap b a hwf (hl a (by simp))
      have hrest := ih (b.write cap a) hstep.1 (fun it hit => hl it (by simp [hit]))
      refine ⟨hrest.1, ?_⟩
      show (Bucket.writeAll cap (b.write cap a) rest).contents = b.contents ++ (a :: rest).flatten
      rw [hrest.2, hstep.2]
      simp

/-- C10: under writes of items that each fit the buffer capacity, every
prefix of the write sequence leaves the Bucket with its invariant intact
(index at most the capacity, buffer length equal to the capacity) and with
flushed-plus-buffered bytes equal to the initial contents followed by the
exact concatenation of the items written so far; a single item longer than
the capacity violates the invariant: the index lands strictly past the
capacity while only the first cap bytes of the item were copied. -/
theorem C10_bucket_write_spec (cap : Nat) (b0 : Bucket) (items : List (List Nat))
    (hwf : b0.wf cap) (hlen : ∀ it ∈ items, it.length ≤ cap) :
    (∀ l1 l2, items = l1 ++ l2 →
       (b0.writeAll cap l1).wf cap ∧
       (b0.writeAll cap l1).contents = b0.contents ++ l1.flatten) ∧
    (∀ item : List Nat, cap < item.length →
       cap < (b0.write cap item).index ∧
       (b0.write cap item).contents = b0.contents ++ item.take cap ∧
       (b0.write cap item).contents ≠ b0.contents ++ item) := by
  constructor
  · intro l1 l2 hsplit
    apply Bucket.writeAll_wf_contents cap l1 b0 hwf
    intro it hit
    exact hlen it (by simp [hsplit, hit])
  · intro item hbig
    exact Bucket.write_overflow cap b0 item hwf hbig

/-- C10, witness: capacity 4, initial empty bucket.  Writing 3 bytes and
then 2 bytes flushes in between and accounts for exactly the five bytes in
order with the invariant intact; writing a 5-byte item overflows: the index
lands at 5, past the capacity. -/
theorem C10_bucket_write_witness :
    (Bucket.writeAll 4 ⟨[0, 0, 0, 0], 0, []⟩ [[1, 2, 3], [4, 5]]).contents = [1, 2, 3, 4, 5] ∧
    (Bucket.writeAll 4 ⟨[0, 0, 0, 0], 0, []⟩ [[1, 2, 3], [4, 5]]).wf 4 ∧
    4 < (Bucket.write 4 ⟨[0, 0, 0, 0], 0, []⟩ [9, 9, 9, 9, 9]).index := by
  have h := C10_bucket_write_spec 4 ⟨[0, 0, 0, 0], 0, []⟩ [[1, 2, 3], [4, 5]]
    (by constructor <;> decide) (by decide)
  have h1 := h.1 [[1, 2, 3], [4, 5]] [] (by simp)
  have h2 := h.2 [9, 9, 9, 9, 9] (by decide)
  exact ⟨h1.2.trans (by decide), h1.1, h2.1⟩

/-- One HandleMutationEvent call either leaves the seqno map unchanged at a
vbucket or sets the event vbucket to the event seqno. -/
theorem HandleMutationEvent_seqnoMap_cases (cm : CMState) (m : Mutation) (x : Nat) :
    (HandleMutationEvent cm m).cm.seqnoMap x = cm.seqnoMap x ∨
    ((HandleMutationEvent cm m).cm.seqnoMap x = m.seqno ∧ x = m.vbno) := by
  by_cases hx : x = m.vbno
  · subst hx
    unfold HandleMutationEvent
    by_cases hc : cm.completeBySeqno <;>
      by_cases hin : m.seqno ≤ cm.endSeqnoMap m.vbno <;>
        simp [hc, hin, setSeqno]
  · left
    unfold HandleMutationEvent
    by_cases hc : cm.completeBySeqno <;>
      by_cases hin : m.seqno ≤ cm.endSeqnoMap m.vbno <;>
        simp [hc, hin, setSeqno, hx]

/-- An accepted HandleMutationEvent call records the event seqno at the
event vbucket. -/
theorem HandleMutationEvent_accepted_seqnoMap (cm : CMState) (m : Mutation)
    (hacc : (HandleMutationEvent cm m).valid = true) :
    (HandleMutationEvent cm m).cm.seqnoMap m.vbno = m.seqno := by
  unfold HandleMutationEvent at hacc ⊢
  by_cases hc : cm.completeBySeqno <;>
    by_cases hin : m.seqno ≤ cm.endSeqnoMap m.vbno <;>
      simp_all [setSeqno]

/-- If every mutation of a delivery is at or above the current seqno map
value at v and the delivery is sorted by seqno, then after processing any
prefix the seqno map at v is still at most the seqno of the next
mutation. -/
theorem processTrace_le_next (v : Nat) :
    ∀ (l1 : List Mutation) (cm0 : CMState) (m : Mutation) (l2 : List Mutation),
      (∀ x ∈ l1 ++ m :: l2, cm0.seqnoMap v ≤ x.seqno) →
      (l1 ++ m :: l2).Pairwise (fun a b => a.seqno ≤ b.seqno) →
      (processTrace cm0 l1).seqnoMap v ≤ m.seqno := by
  intro l1
  induction l1 with
  | nil =>
      intro cm0 m l2 hinit _
      exact hinit m (by simp)
  | cons a rest ih =>
      intro cm0 m l2 hinit hpair
      rw [List.cons_append, List.pairwise_cons] at hpair
      show (processTrace (HandleMutationEvent cm0 a).cm rest).seqnoMap v ≤ m.seqno
      apply ih (HandleMutationEvent cm0 a).cm m l2 ?_ hpair.2
      intro x hx
      rcases HandleMutationEvent_seqnoMap_cases cm0 a v with h | ⟨h, _⟩
      · rw [h]
        exact hinit x (by simp only [List.cons_append, List.mem_cons]; exact Or.inr hx)
      · rw [h]
        exact hpair.1 x hx

/-- C8: under in-order delivery (mutations of vbucket v arrive with
non-decreasing seqnos, starting at or above the initial seqno map value),
processing an accepted mutation m leaves seqnoMap v equal to
max(previous value, m.seqno), and every processing step leaves the whole
seqno map pointwise non-decreasing, so seqnoMap v is monotone over the
run. -/
theorem C8_seqnoMap_max (cm0 : CMState) (v : Nat) (muts l1 l2 : List Mutation) (m : Mutation)
    (hvb : ∀ x ∈ muts, x.vbno = v)
    (hsorted : muts.Pairwise (fun a b => a.seqno ≤ b.seqno))
    (hinit : ∀ x ∈ muts, cm0.seqnoMap v ≤ x.seqno)
    (hsplit : muts = l1 ++ m :: l2) :
    ((HandleMutationEvent (processTrace cm0 l1) m).valid = true →
       (processTrace cm0 (l1 ++ [m])).seqnoMap v =
         max ((processTrace cm0 l1).seqnoMap v) m.seqno) ∧
    (∀ x, (processTrace cm0 l1).seqnoMap x ≤ (processTrace cm0 (l1 ++ [m])).seqnoMap x) := by
  have hmem : m ∈ muts := by
    rw [hsplit]
    simp
  have hmv : m.vbno = v := hvb m hmem
  subst hsplit
  have hle : (processTrace cm0 l1).seqnoMap v ≤ m.seqno :=
    processTrace_le_next v l1 cm0 m l2 hinit hsorted
  have htrace : processTrace cm0 (l1 ++ [m]) =
      (HandleMutationEvent (processTrace cm0 l1) m).cm := by
    unfold processTrace
    rw [List.foldl_append]
    rfl
  constructor
  · intro hacc
    rw [htrace]
    have hset := HandleMutationEvent_accepted_seqnoMap (processTrace cm0 l1) m hacc
    rw [hmv] at hset
    rw [hset]
    omega
  · intro x
    rw [htrace]
    rcases HandleMutationEvent_seqnoMap_cases (processTrace cm0 l1) m x with h | ⟨h, hx⟩
    · rw [h]
    · rw [h, hx, hmv]
      exact hle

/-- C8, witness: a two-mutation in-order delivery to vbucket 0 in seqno
mode with end seqno 100; the second mutation (seqno 2) is accepted and the
seqno map lands at max(1, 2) = 2. -/
theorem C8_seqnoMap_max_witness :
    (processTrace ⟨true, fun _ => 100, fun _ => 0⟩
        [⟨0, [1], 1, 0, 0, 0, 0, 0x57, [], 0⟩, ⟨0, [1], 2, 0, 0, 0, 0, 0x57, [], 0⟩]).seqnoMap 0 =
      max ((processTrace ⟨true, fun _ => 100, fun _ => 0⟩
        [⟨0, [1], 1, 0, 0, 0, 0, 0x57, [], 0⟩]).seqnoMap 0)
        2 := by
  have h := C8_seqnoMap_max ⟨true, fun _ => 100, fun _ => 0⟩ 0
    [⟨0, [1], 1, 0, 0, 0, 0, 0x57, [], 0⟩, ⟨0, [1], 2, 0, 0, 0, 0, 0x57, [], 0⟩]
    [⟨0, [1], 1, 0, 0, 0, 0, 0x57, [], 0⟩] []
    ⟨0, [1], 2, 0, 0, 0, 0, 0x57, [], 0⟩
    (by decide) (by decide) (by decide) rfl
  exact h.1 (by decide)

end XdcrDiffer
